import Mathlib

/-!
# Verification of the SQL-assistant core helpers

Shallow embedding of the helper functions of `app.py` (SQL-safety gate,
row limiter, table-name normalizer, tolerant LLM-response parsing, chart
spec preparation) and proofs of the specification claims about them.

Strings are modelled as `List Char`; the Python `str` operations used by
the code (`upper`, `strip`, `rstrip`, substring `in`, `find`, `rfind`,
slicing) are embedded with their Python semantics (ASCII case mapping).

The code delegates lexing/parsing of SQL to the `sqlparse` library and
JSON decoding to `json.loads`; those library routines are not part of the
repository, so they are modelled here, faithful to the spec's description
of their use ("tokenizes the statement into its lexical tokens", "strict
JSON decode") and to the library's documented behaviour: `sqlparse.parse`
splits the input into statements at semicolons (the semicolon ends the
preceding statement), `Statement.flatten()` yields the leaf tokens, and
`str()` of a statement concatenates the values of its *leaf* tokens
(mutating the `value` attribute of a grouped node such as an `Identifier`
does not change the rendered string).
-/

/-- The characters Python `str.strip()` / `\s` treat as whitespace (ASCII). -/
def pyIsSpace (c : Char) : Bool :=
  c = ' ' || c = '\t' || c = '\n' || c = '\r' || c = Char.ofNat 11 || c = Char.ofNat 12

/-- Python `str.upper()` (ASCII case mapping). -/
def pyUpper (s : List Char) : List Char := s.map Char.toUpper

/-- Python `str.lower()` (ASCII case mapping). -/
def pyLower (s : List Char) : List Char := s.map Char.toLower

/-- Python `str.lstrip()`. -/
def pyLstrip (s : List Char) : List Char := s.dropWhile pyIsSpace

/-- Python `str.rstrip()`. -/
def pyRstrip (s : List Char) : List Char := ((s.reverse).dropWhile pyIsSpace).reverse

/-- Python `str.strip()`. -/
def pyStrip (s : List Char) : List Char := pyRstrip (pyLstrip s)

/-- Python substring membership `pat in s`. -/
def containsL (pat : List Char) : List Char → Bool
  | [] => pat.isEmpty
  | c :: cs => pat.isPrefixOf (c :: cs) || containsL pat cs

/-- Python `str.find(c)`: index of the first occurrence, `-1` if absent. -/
def pyFindChar (s : List Char) (c : Char) : Int :=
  match s.findIdx? (fun x => x = c) with
  | some i => (i : Int)
  | none => -1

/-- Python `str.rfind(c)`: index of the last occurrence, `-1` if absent. -/
def pyRFindChar (s : List Char) (c : Char) : Int :=
  match s.reverse.findIdx? (fun x => x = c) with
  | some i => ((s.length - 1 - i : Nat) : Int)
  | none => -1

/-- Python slicing `s[a:b]` (negative indices count from the end, results
are clamped to the string). -/
def pySlice (s : List Char) (a b : Int) : List Char :=
  let L : Int := (s.length : Int)
  let norm : Int → Nat := fun x => (if x < 0 then max (L + x) 0 else min x L).toNat
  ((s.drop (norm a)).take (norm b - norm a))

/-! ## Modelled sqlparse lexer and statement splitter

`sqlparse` lexes the input into leaf tokens (whitespace runs, word runs,
quoted literals, single punctuation characters) and splits the token
stream into statements at semicolons; the semicolon ends the preceding
statement.  Modelled from the spec: "Tokenizes the first parsed statement
into its lexical tokens, discarding whitespace-only tokens". -/

/-- A word character for the modelled lexer (letters, digits, `_`, `$`). -/
def isWordChar (c : Char) : Bool :=
  c.isAlpha || c.isDigit || c = '_' || c = '$'

/-- One lexing step per recursion: a whitespace run, a word run, a quoted
literal (quotes included in the token, an unterminated literal extends to
the end of the input) or a single punctuation character.  `fuel` only
bounds the recursion; `lexSql` supplies enough of it. -/
def lexFuel : Nat → List Char → List (List Char)
  | 0, _ => []
  | _ + 1, [] => []
  | f + 1, c :: cs =>
    if pyIsSpace c then
      ((c :: cs).takeWhile pyIsSpace) :: lexFuel f ((c :: cs).dropWhile pyIsSpace)
    else if isWordChar c then
      ((c :: cs).takeWhile isWordChar) :: lexFuel f ((c :: cs).dropWhile isWordChar)
    else if c = '\'' || c = '"' then
      match cs.dropWhile (fun x => ¬ x = c), cs.takeWhile (fun x => ¬ x = c) with
      | q :: rest, inner => (c :: inner ++ [q]) :: lexFuel f rest
      | [], inner => [c :: inner]
    else
      [c] :: lexFuel f cs

/-- The modelled `sqlparse` lexer: leaf tokens of the input. -/
def lexSql (cs : List Char) : List (List Char) := lexFuel cs.length cs

/-- The modelled statement splitter: statements are token runs ending at a
semicolon token (the semicolon belongs to the statement it ends). -/
def splitStmts : List (List Char) → List (List (List Char))
  | [] => []
  | t :: ts =>
    let r := splitStmts ts
    if t = [';'] then [t] :: r
    else
      match r with
      | [] => [[t]]
      | g :: gs => (t :: g) :: gs

/-- Whitespace-only (nonempty) token, as `sqlparse`'s `is_whitespace`. -/
def isWsTok (t : List Char) : Bool := ¬ t.isEmpty && t.all pyIsSpace

/-- The forbidden keyword set of `is_select_only` (`app.py`, lines 113-116). -/
def forbiddenKeywords : List (List Char) :=
  ["INSERT".data, "UPDATE".data, "DELETE".data, "DROP".data, "ALTER".data,
   "TRUNCATE".data, "CREATE".data, "REPLACE".data, "GRANT".data, "REVOKE".data,
   "MERGE".data, "CALL".data, "EXEC".data, "BEGIN".data, "COMMIT".data]

/-- The trailing shape check of `is_select_only`:
`sql.strip().upper().startswith(("SELECT", "WITH"))`. -/
def startsSelectOrWith (sql : String) : Bool :=
  "SELECT".data.isPrefixOf (pyUpper (pyStrip sql.data)) ||
    "WITH".data.isPrefixOf (pyUpper (pyStrip sql.data))

/-- `is_select_only` (`app.py`, lines 108-121): parse, reject when there is
no statement, scan the non-whitespace leaf tokens of the **first**
statement for forbidden keywords, then require the whole input to start
(case-insensitively, whitespace-trimmed) with `SELECT` or `WITH`. -/
def is_select_only (sql : String) : Bool :=
  match splitStmts (lexSql sql.data) with
  | [] => false
  | s :: _ =>
    let tokens := s.filter (fun t => ¬ isWsTok t)
    if tokens.any (fun t => forbiddenKeywords.contains (pyUpper t)) then false
    else startsSelectOrWith sql

/-- The substring heuristic of `add_limit`: the upper-cased text contains
`" LIMIT "`, `" FETCH "` or `" TOP "`. -/
def hasLimitMarker (sql : String) : Bool :=
  containsL " LIMIT ".data (pyUpper sql.data) ||
    containsL " FETCH ".data (pyUpper sql.data) ||
    containsL " TOP ".data (pyUpper sql.data)

/-- `add_limit` (`app.py`, lines 123-127). -/
def add_limit (sql : String) (max_rows : Nat) : String :=
  if hasLimitMarker sql then sql
  else String.mk (pyRstrip sql.data ++ " LIMIT ".data ++ (toString max_rows).data)

/-! ## Modelled sqlparse statement tree and `normalize_table_names`

`sqlparse` groups the leaf tokens of a statement into a tree; the nodes
relevant to `normalize_table_names` are `Identifier` (a name, optionally
with an alias), `IdentifierList` and other grouping nodes.  Each node
carries a `value` attribute set at construction to the concatenation of
its leaves; `str()` of the statement concatenates the values of the
**leaf** tokens only, so mutating the `value` attribute of a grouped node
does not change the rendered statement. -/

/-- Concatenation of a token list (used for node values and rendering). -/
def joinToks (ts : List (List Char)) : List Char := ts.flatten

mutual
/-- A node of the modelled statement tree.  `ident` keeps its leaf tokens,
its real (unaliased) name, its alias and its `value` attribute;
`identList` and `group` keep their children and their `value` attribute.
The simplified grouper below builds `leaf`, `ident` and `group` nodes;
`identList` models the `IdentifierList` branch of the source's walk. -/
inductive SqlNode where
  | leaf (t : List Char)
  | ident (leaves : List (List Char)) (realName : List Char)
      (al : Option (List Char)) (value : List Char)
  | identList (items : SqlNodeList) (value : List Char)
  | group (children : SqlNodeList) (value : List Char)

/-- A list of statement-tree nodes. -/
inductive SqlNodeList where
  | nil
  | cons (n : SqlNode) (ns : SqlNodeList)
end

mutual
/-- The leaf tokens of a node, in order (`sqlparse`'s `flatten()`). -/
def flattenN : SqlNode → List (List Char)
  | .leaf t => [t]
  | .ident leaves _ _ _ => leaves
  | .identList items _ => flattenL items
  | .group children _ => flattenL children

/-- The leaf tokens of a node list, in order. -/
def flattenL : SqlNodeList → List (List Char)
  | .nil => []
  | .cons n ns => flattenN n ++ flattenL ns
end

/-- Upper-cased SQL keywords the simplified grouper refuses to treat as
identifier names. -/
def sqlKeywordsUpper : List (List Char) :=
  forbiddenKeywords ++
  ["SELECT".data, "FROM".data, "WHERE".data, "AS".data, "AND".data, "OR".data,
   "NOT".data, "ON".data, "JOIN".data, "INNER".data, "LEFT".data, "RIGHT".data,
   "OUTER".data, "FULL".data, "CROSS".data, "GROUP".data, "BY".data,
   "ORDER".data, "HAVING".data, "LIMIT".data, "OFFSET".data, "UNION".data,
   "ALL".data, "DISTINCT".data, "CASE".data, "WHEN".data, "THEN".data,
   "ELSE".data, "END".data, "NULL".data, "IS".data, "IN".data, "LIKE".data,
   "BETWEEN".data, "EXISTS".data, "SET".data, "VALUES".data, "INTO".data,
   "TABLE".data, "WITH".data, "ASC".data, "DESC".data]

/-- A token that can start an identifier: a word beginning with a letter
or `_` that is not a recognized SQL keyword. -/
def isIdentHead (t : List Char) : Bool :=
  match t with
  | [] => false
  | c :: _ => (c.isAlpha || c = '_') && ¬ sqlKeywordsUpper.contains (pyUpper t)

/-- Group one identifier starting at token `t`: `name`, `name alias` or
`name AS alias` (as `sqlparse` groups aliased identifiers); returns the
node and the unconsumed tokens. -/
def identAux (t : List Char) (ts : List (List Char)) :
    SqlNode × List (List Char) :=
  match ts with
  | w :: x :: rest =>
    if isWsTok w && pyUpper x = "AS".data then
      match rest with
      | w2 :: a :: rest2 =>
        if isWsTok w2 && isIdentHead a then
          (SqlNode.ident [t, w, x, w2, a] t (some a) (joinToks [t, w, x, w2, a]), rest2)
        else (SqlNode.ident [t] t none t, ts)
      | _ => (SqlNode.ident [t] t none t, ts)
    else if isWsTok w && isIdentHead x then
      (SqlNode.ident [t, w, x] t (some x) (joinToks [t, w, x]), rest)
    else (SqlNode.ident [t] t none t, ts)
  | _ => (SqlNode.ident [t] t none t, ts)

/-- Split off a parenthesized chunk: the tokens up to and including the
closing parenthesis matching at depth `d`, and the remainder. -/
def takeParen : List (List Char) → Nat → List (List Char) × List (List Char)
  | [], _ => ([], [])
  | t :: ts, d =>
    if t = [')'] then
      if d = 0 then ([t], ts)
      else
        let p := takeParen ts (d - 1)
        (t :: p.1, p.2)
    else if t = ['('] then
      let p := takeParen ts (d + 1)
      (t :: p.1, p.2)
    else
      let p := takeParen ts d
      (t :: p.1, p.2)

/-- The simplified grouper: parenthesized chunks become `group` nodes
(recursively grouped), identifier-headed words become `ident` nodes with
their optional alias, everything else stays a leaf.  `fuel` only bounds
the recursion; callers supply at least the token-list length. -/
def groupToks : Nat → List (List Char) → SqlNodeList
  | 0, _ => .nil
  | _ + 1, [] => .nil
  | f + 1, t :: ts =>
    if t = ['('] then
      let p := takeParen ts 0
      .cons (.group (.cons (.leaf t) (groupToks f p.1)) (joinToks (t :: p.1)))
        (groupToks f p.2)
    else if isIdentHead t then
      let r := identAux t ts
      .cons r.1 (groupToks f r.2)
    else
      .cons (.leaf t) (groupToks f ts)

/-- Python-dict lookup for the `{lower: canonical}` table map built by a
dict comprehension: later entries overwrite earlier ones. -/
def pyDictGet (m : List (List Char × List Char)) (k : List Char) :
    Option (List Char) :=
  List.lookup k m.reverse

/-- `_fix_identifier` (`app.py`, lines 157-171): when the lower-cased real
name is a key of the table map, set the node's `value` attribute to the
canonical name, keeping an alias that differs from it as
`"<canonical> AS <alias>"`. -/
def fixIdentNode (m : List (List Char × List Char)) (leaves : List (List Char))
    (realName : List Char) (al : Option (List Char)) (value : List Char) :
    SqlNode :=
  match pyDictGet m (pyLower realName) with
  | none => .ident leaves realName al value
  | some canonical =>
    .ident leaves realName al
      (match al with
       | some a => if ¬ a = canonical then canonical ++ " AS ".data ++ a else canonical
       | none => canonical)

/-- The `IdentifierList` branch of `_recurse`: fix the `Identifier` items,
leave everything else in the list untouched. -/
def fixItems (m : List (List Char × List Char)) : SqlNodeList → SqlNodeList
  | .nil => .nil
  | .cons n ns =>
    .cons
      (match n with
       | .ident l r a v => fixIdentNode m l r a v
       | x => x)
      (fixItems m ns)

mutual
/-- `_recurse` (`app.py`, lines 173-182) on one node: fix identifiers,
fix the identifiers of an identifier list, descend into groups. -/
def fixN (m : List (List Char × List Char)) : SqlNode → SqlNode
  | .leaf t => .leaf t
  | .ident l r a v => fixIdentNode m l r a v
  | .identList items v => .identList (fixItems m items) v
  | .group children v => .group (fixL m children) v

/-- `_recurse` on the children of a node list. -/
def fixL (m : List (List Char × List Char)) : SqlNodeList → SqlNodeList
  | .nil => .nil
  | .cons n ns => .cons (fixN m n) (fixL m ns)
end

/-- The `value` attribute of a node (a leaf's value is its text). -/
def nodeValue : SqlNode → List Char
  | .leaf t => t
  | .ident _ _ _ v => v
  | .identList _ v => v
  | .group _ v => v

/-- The `n`-th node of a node list. -/
def nthNode : SqlNodeList → Nat → Option SqlNode
  | .nil, _ => none
  | .cons n _, 0 => some n
  | .cons _ ns, k + 1 => nthNode ns k

/-- `normalize_table_names` (`app.py`, lines 140-185): return the input
unchanged for an empty schema or an unparseable input; otherwise build
the lower-case → canonical table map, walk the first statement's tree
setting identifier `value` attributes, and return `str()` of that first
statement — the concatenation of its leaf token values. -/
def normalize_table_names (sql : String) (schema : List (String × List String)) :
    String :=
  if schema.isEmpty then sql
  else
    let table_map := schema.map (fun p => (pyLower p.1.data, p.1.data))
    match splitStmts (lexSql sql.data) with
    | [] => sql
    | s :: _ => String.mk (joinToks (flattenL (fixL table_map (groupToks s.length s))))

/-- The claim's "stringified first statement", stated in the spec's own
words: the text of the first parsed statement (the input itself when
nothing parses). -/
def firstStatementString (sql : String) : String :=
  match splitStmts (lexSql sql.data) with
  | [] => sql
  | s :: _ => String.mk (joinToks s)

/-! ## Modelled strict JSON decoding and the response repair of `ask_llm`

`ask_llm` (`app.py`, lines 214-234) first attempts a strict `json.loads`
of the reply; on failure it extracts the substring between the first
opening brace and the last closing brace, applies the textual repairs
(single quotes → double quotes, `//` line comments, `/* */` block
comments, trailing commas before a closing brace or bracket), retries the
strict decode, and on a second failure shows the original text and
re-raises.  The JSON decoder is modelled after Python's strict `json`
module (`List Char` number lexemes stand for the decoded numbers). -/

/-- The opening-brace character (written by code point). -/
def lbrace : Char := Char.ofNat 123

/-- The closing-brace character (written by code point). -/
def rbrace : Char := Char.ofNat 125

/-- A JSON value; numbers keep their lexeme, objects their fields in
textual order. -/
inductive Json where
  | null
  | bool (b : Bool)
  | num (lexeme : List Char)
  | str (s : List Char)
  | arr (elts : List Json)
  | obj (fields : List (List Char × Json))

instance : Inhabited Json := ⟨Json.null⟩

/-- JSON insignificant whitespace (as Python's `json` module). -/
def skipJsonWs (cs : List Char) : List Char :=
  cs.dropWhile (fun c => c = ' ' || c = '\t' || c = '\n' || c = '\r')

/-- Hexadecimal digit value (by code point: `0-9`, `a-f`, `A-F`). -/
def hexVal? (c : Char) : Option Nat :=
  let n := c.toNat
  if 48 ≤ n && n ≤ 57 then some (n - 48)
  else if 97 ≤ n && n ≤ 102 then some (n - 87)
  else if 65 ≤ n && n ≤ 70 then some (n - 55)
  else none

/-- A simple JSON string escape. -/
def escChar? (c : Char) : Option Char :=
  if c = '"' then some '"'
  else if c = '\\' then some '\\'
  else if c = '/' then some '/'
  else if c = 'b' then some (Char.ofNat 8)
  else if c = 'f' then some (Char.ofNat 12)
  else if c = 'n' then some '\n'
  else if c = 'r' then some '\r'
  else if c = 't' then some '\t'
  else none

/-- Parse a JSON string body after its opening quote: the decoded string
and the remainder.  Strict mode: unescaped control characters and unknown
escapes are rejected.  (`\uXXXX` becomes the single code point; surrogate
pairing is not modelled.) -/
def parseJString : Nat → List Char → Option (List Char × List Char)
  | 0, _ => none
  | _ + 1, [] => none
  | f + 1, c :: cs =>
    if c = '"' then some ([], cs)
    else if c = '\\' then
      match cs with
      | 'u' :: h1 :: h2 :: h3 :: h4 :: cs2 =>
        match hexVal? h1, hexVal? h2, hexVal? h3, hexVal? h4 with
        | some a, some b, some c2, some d =>
          (parseJString f cs2).map
            (fun p => (Char.ofNat (((a * 16 + b) * 16 + c2) * 16 + d) :: p.1, p.2))
        | _, _, _, _ => none
      | e :: cs2 =>
        match escChar? e with
        | some ec => (parseJString f cs2).map (fun p => (ec :: p.1, p.2))
        | none => none
      | [] => none
    else if c.toNat < 32 then none
    else (parseJString f cs).map (fun p => (c :: p.1, p.2))

/-- Parse a JSON number lexeme (as the `json` module's number regex:
optional sign, integer part without a leading zero, optional fraction and
exponent; a partial match ends the lexeme early). -/
def parseNumber (cs : List Char) : Option (List Char × List Char) :=
  let sign : List Char × List Char :=
    match cs with
    | '-' :: r => (['-'], r)
    | _ => ([], cs)
  match sign.2 with
  | [] => none
  | c :: _ =>
    if ¬ c.isDigit then none
    else
      let ip := sign.2.takeWhile Char.isDigit
      let r1 := sign.2.dropWhile Char.isDigit
      if 1 < ip.length && ip.headD '0' = '0' then none
      else
        let frac : List Char × List Char :=
          match r1 with
          | '.' :: r =>
            let ds := r.takeWhile Char.isDigit
            if ds.isEmpty then ([], r1) else ('.' :: ds, r.dropWhile Char.isDigit)
          | _ => ([], r1)
        let ex : List Char × List Char :=
          match frac.2 with
          | e :: r =>
            if e = 'e' || e = 'E' then
              let sgn : List Char × List Char :=
                match r with
                | '+' :: r2 => (['+'], r2)
                | '-' :: r2 => (['-'], r2)
                | _ => ([], r)
              let ds := sgn.2.takeWhile Char.isDigit
              if ds.isEmpty then ([], frac.2)
              else (e :: sgn.1 ++ ds, sgn.2.dropWhile Char.isDigit)
            else ([], frac.2)
          | _ => ([], frac.2)
        some (sign.1 ++ ip ++ frac.1 ++ ex.1, ex.2)

mutual
/-- Parse one JSON value (after skipping whitespace); `fuel` only bounds
the recursion and `jsonLoads` supplies enough of it. -/
def parseJValue : Nat → List Char → Option (Json × List Char)
  | 0, _ => none
  | f + 1, cs =>
    match skipJsonWs cs with
    | [] => none
    | c :: rest =>
      if c = '"' then
        (parseJString (rest.length + 1) rest).map (fun p => (Json.str p.1, p.2))
      else if c = lbrace then parseMembers f rest true
      else if c = '[' then parseElems f rest true
      else if c = 't' then
        if "rue".data.isPrefixOf rest then some (Json.bool true, rest.drop 3) else none
      else if c = 'f' then
        if "alse".data.isPrefixOf rest then some (Json.bool false, rest.drop 4) else none
      else if c = 'n' then
        if "ull".data.isPrefixOf rest then some (Json.null, rest.drop 3) else none
      else if c = '-' || c.isDigit then
        (parseNumber (c :: rest)).map (fun p => (Json.num p.1, p.2))
      else none

/-- Parse object members after the opening brace (`first` distinguishes
the position right after the brace, where an empty object may close, from
the position after a comma, where a member is required). -/
def parseMembers : Nat → List Char → Bool → Option (Json × List Char)
  | 0, _, _ => none
  | f + 1, cs, first =>
    match skipJsonWs cs with
    | [] => none
    | c :: rest =>
      if first && c = rbrace then some (Json.obj [], rest)
      else if c = '"' then
        match parseJString (rest.length + 1) rest with
        | none => none
        | some (key, r1) =>
          match skipJsonWs r1 with
          | ':' :: r2 =>
            match parseJValue f r2 with
            | none => none
            | some (v, r3) =>
              match skipJsonWs r3 with
              | ',' :: r4 =>
                match parseMembers f r4 false with
                | some (Json.obj fs, r5) => some (Json.obj ((key, v) :: fs), r5)
                | _ => none
              | c2 :: r4 =>
                if c2 = rbrace then some (Json.obj [(key, v)], r4) else none
              | [] => none
          | _ => none
      else none

/-- Parse array elements after the opening bracket. -/
def parseElems : Nat → List Char → Bool → Option (Json × List Char)
  | 0, _, _ => none
  | f + 1, cs, first =>
    match skipJsonWs cs with
    | [] => none
    | c :: rest =>
      if first && c = ']' then some (Json.arr [], rest)
      else
        match parseJValue f cs with
        | none => none
        | some (v, r1) =>
          match skipJsonWs r1 with
          | ',' :: r2 =>
            match parseElems f r2 false with
            | some (Json.arr vs, r3) => some (Json.arr (v :: vs), r3)
            | _ => none
          | c2 :: r2 => if c2 = ']' then some (Json.arr [v], r2) else none
          | [] => none
end

/-- Modelled strict `json.loads`: one JSON value, with only insignificant
whitespace around it. -/
def jsonLoads (cs : List Char) : Option Json :=
  match parseJValue (cs.length + 1) cs with
  | some (v, rest) => if skipJsonWs rest = [] then some v else none
  | none => none

/-- `re.sub(r"//.*?\n", "", _)`: remove each `//` together with everything
up to and including the next newline; a trailing `//`-run without a
newline does not match and is kept. -/
def stripLineCommentsF : Nat → List Char → List Char
  | 0, _ => []
  | _ + 1, [] => []
  | f + 1, c :: cs =>
    if c = '/' then
      match cs with
      | '/' :: rest =>
        match rest.dropWhile (fun x => ¬ x = '\n') with
        | [] => c :: stripLineCommentsF f cs
        | _ :: after => stripLineCommentsF f after
      | _ => c :: stripLineCommentsF f cs
    else c :: stripLineCommentsF f cs

/-- Scan for a block-comment closer `*/` with no newline before it (the
`.` of the pattern does not match a newline); returns the remainder after
the closer. -/
def blockEnd : Nat → List Char → Option (List Char)
  | 0, _ => none
  | _ + 1, [] => none
  | f + 1, x :: xs =>
    if x = '\n' then none
    else if x = '*' then
      match xs with
      | '/' :: r => some r
      | _ => blockEnd f xs
    else blockEnd f xs

/-- `re.sub(r"/\*.*?\*/", "", _)`: remove each single-line `/* ... */`
block comment (the pattern cannot span a newline). -/
def stripBlockCommentsF : Nat → List Char → List Char
  | 0, _ => []
  | _ + 1, [] => []
  | f + 1, c :: cs =>
    if c = '/' then
      match cs with
      | '*' :: rest =>
        match blockEnd (rest.length + 1) rest with
        | some after => stripBlockCommentsF f after
        | none => c :: stripBlockCommentsF f cs
      | _ => c :: stripBlockCommentsF f cs
    else c :: stripBlockCommentsF f cs

/-- `re.sub(r",\s*X", "X", _)` for a closing delimiter `X`: a comma whose
following whitespace run ends at `X` is removed together with that
whitespace. -/
def rmCommaCloseF (close : Char) : Nat → List Char → List Char
  | 0, _ => []
  | _ + 1, [] => []
  | f + 1, c :: cs =>
    if c = ',' then
      match cs.dropWhile pyIsSpace with
      | b :: r =>
        if b = close then close :: rmCommaCloseF close f r
        else c :: rmCommaCloseF close f cs
      | [] => c :: rmCommaCloseF close f cs
    else c :: rmCommaCloseF close f cs

/-- The fragment extraction of the fallback path:
`content[content.find("{") : content.rfind("}") + 1]`. -/
def extractFragment (content : List Char) : List Char :=
  pySlice content (pyFindChar content lbrace) (pyRFindChar content rbrace + 1)

/-- The textual repairs of the fallback path, in source order: single
quotes to double quotes, `//` line comments, `/* */` block comments,
trailing commas before a closing brace, trailing commas before a closing
bracket. -/
def repairFragment (fragment : List Char) : List Char :=
  let f1 := fragment.map (fun c => if c = '\'' then '"' else c)
  let f2 := stripLineCommentsF (f1.length + 1) f1
  let f3 := stripBlockCommentsF (f2.length + 1) f2
  let f4 := rmCommaCloseF rbrace (f3.length + 1) f3
  rmCommaCloseF ']' (f4.length + 1) f4

/-- The response parsing of `ask_llm` (`app.py`, lines 214-234): strict
decode of the reply, else strict decode of the repaired extracted
fragment, else failure carrying the original reply text (the code shows
the raw output and re-raises). -/
def parse_llm_response (content : String) : Except String Json :=
  match jsonLoads content.data with
  | some j => .ok j
  | none =>
    match jsonLoads (repairFragment (extractFragment content.data)) with
    | some j => .ok j
    | none => .error content

/-- The successful result of an `Except`, when any. -/
def exceptOk? : Except String Json → Option Json
  | .ok j => some j
  | .error _ => none

/-- The failure payload of an `Except`, when any. -/
def exceptErr? : Except String Json → Option String
  | .ok _ => none
  | .error e => some e

/-- Field access on a decoded JSON object (`dict.get`: with the textual
field list, later duplicates overwrite earlier ones). -/
def lookupField (j : Json) (k : List Char) : Option Json :=
  match j with
  | .obj fs => List.lookup k fs.reverse
  | _ => none

/-- The chart-spec preparation (`app.py`, lines 474-476): remove a
top-level `"data"` key when present, leave everything else as is. -/
def strip_chart_data : Json → Json
  | .obj fs =>
    if fs.any (fun p => p.1 == "data".data) then
      .obj (fs.filter (fun p => !(p.1 == "data".data)))
    else .obj fs
  | j => j

/-- The full chart-spec handling (`app.py`, lines 469-478): a string spec
is strictly decoded first (a decode failure degrades to no chart), then
the `"data"` key is stripped. -/
def prepare_chart_spec : Json → Option Json
  | .str s => (jsonLoads s).map strip_chart_data
  | j => some (strip_chart_data j)

/-! ## Supporting lemmas -/

theorem joinToks_append (a b : List (List Char)) :
    joinToks (a ++ b) = joinToks a ++ joinToks b := by
  simp [joinToks]

theorem joinToks_cons (t : List Char) (ts : List (List Char)) :
    joinToks (t :: ts) = t ++ joinToks ts := by
  simp [joinToks]

/-- A nonempty input lexes to at least one token. -/
theorem lexSql_ne_nil (c : Char) (cs : List Char) : lexSql (c :: cs) ≠ [] := by
  simp only [lexSql, List.length_cons, lexFuel]
  split
  · simp
  · split
    · simp
    · split
      · split <;> simp
      · simp

/-- A nonempty token list splits into at least one statement. -/
theorem splitStmts_ne_nil (t : List Char) (ts : List (List Char)) :
    splitStmts (t :: ts) ≠ [] := by
  simp only [splitStmts]
  split
  · simp
  · split <;> simp

/-- Every token of the first statement is a token of the input. -/
theorem mem_splitStmts_head :
    ∀ (ts : List (List Char)) (s : List (List Char)) (gs : List (List (List Char))),
      splitStmts ts = s :: gs → ∀ t ∈ s, t ∈ ts := by
  intro ts
  induction ts with
  | nil => intro s gs h; simp [splitStmts] at h
  | cons t ts ih =>
    intro s gs h u hu
    simp only [splitStmts] at h
    by_cases ht : t = [';']
    · rw [if_pos ht] at h
      obtain ⟨h1, _⟩ := List.cons.inj h
      subst h1
      simp only [List.mem_singleton] at hu
      subst hu
      exact List.mem_cons_self _ _
    · rw [if_neg ht] at h
      cases hsp : splitStmts ts with
      | nil =>
        rw [hsp] at h
        obtain ⟨h1, _⟩ := List.cons.inj h
        subst h1
        simp only [List.mem_singleton] at hu
        subst hu
        exact List.mem_cons_self _ _
      | cons g gs' =>
        rw [hsp] at h
        obtain ⟨h1, _⟩ := List.cons.inj h
        subst h1
        rcases List.mem_cons.mp hu with h2 | h2
        · subst h2; exact List.mem_cons_self _ _
        · exact List.mem_cons_of_mem t (ih g gs' hsp u h2)

theorem isPrefixOf_append_self : ∀ p r : List Char, p.isPrefixOf (p ++ r) = true := by
  intro p r
  induction p with
  | nil => simp [List.isPrefixOf]
  | cons a as ih => simp [List.isPrefixOf, ih]

/-- A pattern occurring verbatim inside a string is found by `containsL`. -/
theorem containsL_append_mid : ∀ a p b : List Char, containsL p (a ++ (p ++ b)) = true := by
  intro a p b
  induction a with
  | nil =>
    simp only [List.nil_append]
    cases hp : p ++ b with
    | nil =>
      have hpn : p = [] := (List.append_eq_nil.mp hp).1
      subst hpn
      simp [containsL]
    | cons c cs =>
      rw [containsL, ← hp, isPrefixOf_append_self]
      simp
  | cons x xs ih =>
    rw [List.cons_append, containsL, ih]
    simp

/-- Appending `" LIMIT {n}"` makes the limit heuristic fire. -/
theorem hasLimitMarker_append_limit (s : List Char) (n : Nat) :
    hasLimitMarker (String.mk (s ++ " LIMIT ".data ++ (toString n).data)) = true := by
  have hdata : (String.mk (s ++ " LIMIT ".data ++ (toString n).data)).data
      = s ++ " LIMIT ".data ++ (toString n).data := rfl
  simp only [hasLimitMarker, pyUpper, hdata, List.map_append]
  have hup : List.map Char.toUpper " LIMIT ".data = " LIMIT ".data := by decide
  rw [hup, List.append_assoc, containsL_append_mid]
  simp

/-- Fixing an identifier only changes its `value` attribute, never its
leaf tokens. -/
theorem flattenN_fixIdentNode (m : List (List Char × List Char))
    (l : List (List Char)) (r : List Char) (a : Option (List Char))
    (v : List Char) : flattenN (fixIdentNode m l r a v) = l := by
  simp only [fixIdentNode]
  split <;> simp [flattenN]

/-- Fixing the identifiers of an identifier list keeps the leaf tokens. -/
theorem flattenL_fixItems (m : List (List Char × List Char)) :
    ∀ ns : SqlNodeList, flattenL (fixItems m ns) = flattenL ns
  | .nil => rfl
  | .cons n ns => by
    cases n with
    | leaf t => simp [fixItems, flattenL, flattenL_fixItems m ns]
    | ident l r a v =>
      simp [fixItems, flattenL, flattenL_fixItems m ns, flattenN_fixIdentNode, flattenN]
    | identList items v => simp [fixItems, flattenL, flattenL_fixItems m ns]
    | group children v => simp [fixItems, flattenL, flattenL_fixItems m ns]

mutual
/-- The statement walk only mutates `value` attributes: a fixed node has
the same leaf tokens. -/
theorem flattenN_fixN (m : List (List Char × List Char)) :
    ∀ n : SqlNode, flattenN (fixN m n) = flattenN n
  | .leaf t => rfl
  | .ident l r a v => by
    simp [fixN, flattenN_fixIdentNode, flattenN]
  | .identList items v => by
    simp [fixN, flattenN, flattenL_fixItems m items]
  | .group children v => by
    simp [fixN, flattenN, flattenL_fixL m children]

/-- The statement walk on a node list keeps the leaf tokens. -/
theorem flattenL_fixL (m : List (List Char × List Char)) :
    ∀ ns : SqlNodeList, flattenL (fixL m ns) = flattenL ns
  | .nil => rfl
  | .cons n ns => by
    simp [fixL, flattenL, flattenN_fixN m n, flattenL_fixL m ns]
end

/-- `takeParen` splits its input: the chunk and the rest concatenate back. -/
theorem takeParen_append : ∀ (ts : List (List Char)) (d : Nat),
    (takeParen ts d).1 ++ (takeParen ts d).2 = ts := by
  intro ts
  induction ts with
  | nil => intro d; rfl
  | cons t ts ih =>
    intro d
    simp only [takeParen]
    split
    · split
      · simp
      · simp [ih]
    · split
      · simp [ih]
      · simp [ih]

/-- The chunk and the rest of `takeParen` are no longer than the input. -/
theorem takeParen_length (ts : List (List Char)) (d : Nat) :
    (takeParen ts d).1.length ≤ ts.length ∧ (takeParen ts d).2.length ≤ ts.length := by
  have h := congrArg List.length (takeParen_append ts d)
  rw [List.length_append] at h
  omega

/-- Grouping one identifier splits its input: the node's leaves and the
unconsumed tokens concatenate back. -/
theorem identAux_flatten (t : List Char) (ts : List (List Char)) :
    flattenN (identAux t ts).1 ++ (identAux t ts).2 = t :: ts := by
  simp only [identAux]
  split
  · split
    · split
      · split
        · simp_all [flattenN]
        · simp_all [flattenN]
      · simp_all [flattenN]
    · split
      · simp_all [flattenN]
      · simp_all [flattenN]
  · simp [flattenN]

/-- Grouping one identifier consumes at least the head token. -/
theorem identAux_length (t : List Char) (ts : List (List Char)) :
    (identAux t ts).2.length ≤ ts.length := by
  simp only [identAux]
  split
  · split
    · split
      · split
        · simp_all [List.length_cons]; omega
        · simp_all
      · simp_all
    · split
      · simp_all [List.length_cons]; omega
      · simp_all
  · simp

/-- Grouping never loses or reorders leaf tokens: rendering the grouped
tree gives back the statement text. -/
theorem groupToks_flatten : ∀ (f : Nat) (ts : List (List Char)), ts.length ≤ f →
    joinToks (flattenL (groupToks f ts)) = joinToks ts := by
  intro f
  induction f with
  | zero =>
    intro ts h
    have hnil : ts = [] := List.length_eq_zero.mp (Nat.le_zero.mp h)
    subst hnil
    rfl
  | succ f ih =>
    intro ts h
    cases ts with
    | nil => rfl
    | cons t ts' =>
      simp only [List.length_cons, Nat.succ_le_succ_iff] at h
      simp only [groupToks]
      split
      · have hlen := takeParen_length ts' 0
        have h1 : (takeParen ts' 0).1.length ≤ f := le_trans hlen.1 h
        have h2 : (takeParen ts' 0).2.length ≤ f := le_trans hlen.2 h
        simp only [flattenL, flattenN, joinToks_append, joinToks_cons]
        rw [ih _ h1, ih _ h2]
        simp only [joinToks, List.flatten_nil, List.append_nil]
        rw [List.append_assoc, ← List.flatten_append, takeParen_append]
      · split
        · have h2 : (identAux t ts').2.length ≤ f := le_trans (identAux_length t ts') h
          simp only [flattenL, joinToks_append]
          rw [ih _ h2, ← joinToks_append, identAux_flatten]
        · have h2 : ts'.length ≤ f := h
          simp only [flattenL, flattenN, joinToks_append, joinToks_cons]
          rw [ih _ h2]
          simp only [joinToks, List.flatten_nil, List.append_nil]

/-- Removing the `"data"` entries does not affect lookups of other keys. -/
theorem lookup_filter_ne (k d : List Char) (h : ¬ k = d) :
    ∀ l : List (List Char × Json),
      List.lookup k (List.filter (fun p => !(p.1 == d)) l) = List.lookup k l
  | [] => rfl
  | (a, b) :: t => by
    by_cases had : a = d
    · subst had
      have h1 : (k == a) = false := by
        simp only [beq_eq_false_iff_ne, ne_eq]
        exact h
      simp [List.filter_cons, List.lookup_cons, h1, lookup_filter_ne k a h t]
    · have h2 : (a == d) = false := by
        simp only [beq_eq_false_iff_ne, ne_eq]
        exact had
      cases hk : (k == a) with
      | true => simp [List.filter_cons, List.lookup_cons, h2, hk]
      | false => simp [List.filter_cons, List.lookup_cons, h2, hk, lookup_filter_ne k d h t]

/-- After removing the `"data"` entries, looking up `"data"` fails. -/
theorem lookup_filter_self (d : List Char) :
    ∀ l : List (List Char × Json),
      List.lookup d (List.filter (fun p => !(p.1 == d)) l) = none
  | [] => rfl
  | (a, b) :: t => by
    by_cases had : a = d
    · subst had
      simp [List.filter_cons, lookup_filter_self a t]
    · have h2 : (a == d) = false := by
        simp only [beq_eq_false_iff_ne, ne_eq]
        exact had
      have h3 : (d == a) = false := by
        simp only [beq_eq_false_iff_ne, ne_eq]
        exact fun hh => had hh.symm
      simp [List.filter_cons, List.lookup_cons, h2, h3, lookup_filter_self d t]

/-- A key absent from every entry cannot be looked up. -/
theorem lookup_none_of_no_key (d : List Char) :
    ∀ l : List (List Char × Json),
      (∀ p ∈ l, (p.1 == d) = false) → List.lookup d l = none
  | [] => fun _ => rfl
  | (a, b) :: t => fun hall => by
    have h1 := hall (a, b) (List.mem_cons_self _ _)
    have h3 : (d == a) = false := by
      simp only [beq_eq_false_iff_ne, ne_eq] at h1 ⊢
      exact fun hh => h1 hh.symm
    have ht := lookup_none_of_no_key d t (fun p hp => hall p (List.mem_cons_of_mem _ hp))
    simp [List.lookup_cons, h3, ht]

/-! ## Claim theorems -/

/-- Claim C1 (code bug, evaluated at the failing input): `is_select_only`
scans only the first parsed statement, so on
`"SELECT * FROM t; DROP TABLE t"` it returns `true` even though the
token stream of the whole input contains the forbidden keyword `DROP`;
the claim (and the spec) require `false` here. -/
theorem claim_c1_code_eval :
    is_select_only "SELECT * FROM t; DROP TABLE t" = true
    ∧ (lexSql ("SELECT * FROM t; DROP TABLE t" : String).data).any
        (fun t => forbiddenKeywords.contains (pyUpper t)) = true :=
  ⟨rfl, rfl⟩

/-- Claim C2: an input that starts (case-insensitively, after trimming)
with `SELECT` or `WITH` and whose token stream contains no forbidden
keyword passes `is_select_only`; the spec's concrete examples hold, and
an input lexing to no statement at all is rejected. -/
theorem claim_c2 :
    (∀ sql : String,
        (∀ t ∈ lexSql sql.data, forbiddenKeywords.contains (pyUpper t) = false) →
        startsSelectOrWith sql = true →
        is_select_only sql = true)
    ∧ is_select_only "SELECT * FROM t" = true
    ∧ is_select_only "   select 1" = true
    ∧ (∀ sql : String, splitStmts (lexSql sql.data) = [] → is_select_only sql = false) := by
  refine ⟨?_, rfl, rfl, ?_⟩
  · intro sql h1 h2
    have hne : sql.data ≠ [] := by
      intro hnil
      unfold startsSelectOrWith at h2
      rw [hnil] at h2
      revert h2
      decide
    cases hd : sql.data with
    | nil => exact absurd hd hne
    | cons c cs =>
      have hlex : lexSql sql.data ≠ [] := by rw [hd]; exact lexSql_ne_nil c cs
      cases hlexv : lexSql sql.data with
      | nil => exact absurd hlexv hlex
      | cons t0 ts0 =>
        cases hsp : splitStmts (t0 :: ts0) with
        | nil => exact absurd hsp (splitStmts_ne_nil t0 ts0)
        | cons s gs =>
          have hsp' : splitStmts (lexSql sql.data) = s :: gs := by rw [hlexv]; exact hsp
          simp only [is_select_only, hsp']
          have hany : (s.filter (fun t => ¬ isWsTok t)).any
              (fun t => forbiddenKeywords.contains (pyUpper t)) = false := by
            apply List.any_eq_false.mpr
            intro x hx
            have hx1 : x ∈ s := List.mem_of_mem_filter hx
            have hx2 : x ∈ lexSql sql.data := by
              rw [hlexv]
              exact mem_splitStmts_head (t0 :: ts0) s gs hsp x hx1
            simpa using h1 x hx2
          rw [hany]
          simpa using h2
  · intro sql h
    simp [is_select_only, h]

/-- Witness for claim C2 at `"SELECT * FROM t"`. -/
theorem claim_c2_witness :
    (∀ t ∈ lexSql ("SELECT * FROM t" : String).data,
        forbiddenKeywords.contains (pyUpper t) = false)
    ∧ startsSelectOrWith "SELECT * FROM t" = true
    ∧ is_select_only "SELECT * FROM t" = true :=
  ⟨by decide, by decide, claim_c2.1 "SELECT * FROM t" (by decide) (by decide)⟩

/-- Claim C3 (code bug, evaluated at the spec's own example): the walk
does set the matching identifier node's `value` attribute to
`"Employees AS e"`, but the function returns the input unchanged, because
the statement is rendered from its (unmutated) leaf tokens. -/
theorem claim_c3_code_eval :
    normalize_table_names "SELECT * FROM employees e" [("Employees", ["id", "name"])]
        = "SELECT * FROM employees e"
    ∧ ((nthNode (groupToks 9
          ((splitStmts (lexSql ("SELECT * FROM employees e" : String).data)).headD []))
          6).map nodeValue = some ("employees e" : String).data)
    ∧ ((nthNode (fixL [(("employees" : String).data, ("Employees" : String).data)]
          (groupToks 9
            ((splitStmts (lexSql ("SELECT * FROM employees e" : String).data)).headD [])))
          6).map nodeValue = some ("Employees AS e" : String).data) :=
  ⟨rfl, rfl, rfl⟩

/-- Claim C4: on the spec's example the strict decode fails, the fallback
extracts the brace-delimited fragment, the ordered repairs turn it into
well-formed JSON, and the `sql`/`summary` fields are recovered. -/
theorem claim_c4 :
    jsonLoads ("Here is the answer: \x7b'sql': 'SELECT 1', 'summary': 'ok',\x7d" : String).data
        = none
    ∧ repairFragment (extractFragment
          ("Here is the answer: \x7b'sql': 'SELECT 1', 'summary': 'ok',\x7d" : String).data)
        = ("\x7b\"sql\": \"SELECT 1\", \"summary\": \"ok\"\x7d" : String).data
    ∧ parse_llm_response "Here is the answer: \x7b'sql': 'SELECT 1', 'summary': 'ok',\x7d"
        = Except.ok (Json.obj [(("sql" : String).data, Json.str ("SELECT 1" : String).data),
            (("summary" : String).data, Json.str ("ok" : String).data)]) :=
  ⟨rfl, rfl, rfl⟩

/-- Claim C5: when the strict decode and the decode of the repaired
fragment both fail, the parser fails and the failure carries the original
raw text. -/
theorem claim_c5 (content : String)
    (h1 : jsonLoads content.data = none)
    (h2 : jsonLoads (repairFragment (extractFragment content.data)) = none) :
    parse_llm_response content = Except.error content := by
  simp [parse_llm_response, h1, h2]

/-- Witness for claim C5 at `"not json at all"`. -/
theorem claim_c5_witness :
    jsonLoads ("not json at all" : String).data = none
    ∧ jsonLoads (repairFragment (extractFragment ("not json at all" : String).data)) = none
    ∧ parse_llm_response "not json at all" = Except.error "not json at all" :=
  ⟨rfl, rfl, claim_c5 "not json at all" rfl rfl⟩

/-- Claim C6 (round trip): a reply that strictly decodes to an object
with exactly the keys `sql`, `summary`, `chart` is returned by the strict
path with its field values unchanged; the fallback never runs. -/
theorem claim_c6 (content : String) (fs : List (List Char × Json))
    (h1 : jsonLoads content.data = some (Json.obj fs))
    (_hkeys : (fs.map Prod.fst).Perm
        [("sql" : String).data, ("summary" : String).data, ("chart" : String).data]) :
    parse_llm_response content = Except.ok (Json.obj fs) := by
  simp [parse_llm_response, h1]

/-- Witness for claim C6 at a well-formed reply. -/
theorem claim_c6_witness :
    jsonLoads ("\x7b\"sql\":\"SELECT 1\",\"summary\":\"ok\",\"chart\":null\x7d" : String).data
        = some (Json.obj [(("sql" : String).data, Json.str ("SELECT 1" : String).data),
            (("summary" : String).data, Json.str ("ok" : String).data),
            (("chart" : String).data, Json.null)])
    ∧ parse_llm_response "\x7b\"sql\":\"SELECT 1\",\"summary\":\"ok\",\"chart\":null\x7d"
        = Except.ok (Json.obj [(("sql" : String).data, Json.str ("SELECT 1" : String).data),
            (("summary" : String).data, Json.str ("ok" : String).data),
            (("chart" : String).data, Json.null)]) :=
  ⟨rfl, claim_c6 _ _ rfl (by decide)⟩

/-- Claim C7: `add_limit` leaves inputs with a limit marker unchanged,
otherwise appends `" LIMIT {max_rows}"` to the right-trimmed input, and
is idempotent; the spec's example holds. -/
theorem claim_c7 :
    (∀ (sql : String) (n : Nat), hasLimitMarker sql = true → add_limit sql n = sql)
    ∧ (∀ (sql : String) (n : Nat), hasLimitMarker sql = false →
        add_limit sql n = String.mk (pyRstrip sql.data ++ " LIMIT ".data ++ (toString n).data))
    ∧ (∀ (sql : String) (n : Nat), add_limit (add_limit sql n) n = add_limit sql n)
    ∧ add_limit "SELECT * FROM t" 200 = "SELECT * FROM t LIMIT 200" := by
  refine ⟨?_, ?_, ?_, by rfl⟩
  · intro sql n h
    simp [add_limit, h]
  · intro sql n h
    simp [add_limit, h]
  · intro sql n
    by_cases h : hasLimitMarker sql
    · simp [add_limit, h]
    · have h2 : add_limit sql n
          = String.mk (pyRstrip sql.data ++ " LIMIT ".data ++ (toString n).data) := by
        simp [add_limit, h]
      have h3 := hasLimitMarker_append_limit (pyRstrip sql.data) n
      calc add_limit (add_limit sql n) n
          = add_limit (String.mk (pyRstrip sql.data ++ " LIMIT ".data ++ (toString n).data)) n := by
            rw [h2]
        _ = String.mk (pyRstrip sql.data ++ " LIMIT ".data ++ (toString n).data) := by
            unfold add_limit
            rw [if_pos h3]
        _ = add_limit sql n := h2.symm

/-- Witness for claim C7: the marker branch at a query that already has a
limit, and the append branch at one that does not. -/
theorem claim_c7_witness :
    hasLimitMarker "SELECT * FROM t LIMIT 10" = true
    ∧ add_limit "SELECT * FROM t LIMIT 10" 200 = "SELECT * FROM t LIMIT 10"
    ∧ hasLimitMarker "SELECT 1" = false
    ∧ add_limit "SELECT 1" 7
        = String.mk (pyRstrip ("SELECT 1" : String).data ++ " LIMIT ".data ++ (toString 7).data) :=
  ⟨by decide, claim_c7.1 "SELECT * FROM t LIMIT 10" 200 (by decide), by decide,
    claim_c7.2.1 "SELECT 1" 7 (by decide)⟩

/-- Claim C8: with an empty schema, `normalize_table_names` is the
identity. -/
theorem claim_c8 (sql : String) : normalize_table_names sql [] = sql := rfl

/-- Claim C9: stripping the chart spec removes the top-level `"data"` key
and leaves the lookup of every other key unchanged. -/
theorem claim_c9 (fs : List (List Char × Json)) :
    lookupField (strip_chart_data (Json.obj fs)) ("data" : String).data = none
    ∧ ∀ k : List Char, ¬ k = ("data" : String).data →
        lookupField (strip_chart_data (Json.obj fs)) k = lookupField (Json.obj fs) k := by
  constructor
  · simp only [strip_chart_data]
    split
    · simp only [lookupField]
      rw [← List.filter_reverse]
      exact lookup_filter_self _ _
    · rename_i hany
      simp only [lookupField]
      apply lookup_none_of_no_key
      intro p hp
      have hp' : p ∈ fs := List.mem_reverse.mp hp
      have hfa : fs.any (fun p => p.1 == ("data" : String).data) = false :=
        Bool.not_eq_true _ ▸ hany
      exact Bool.eq_false_iff.mpr (List.any_eq_false.mp hfa p hp')
  · intro k hk
    simp only [strip_chart_data]
    split
    · simp only [lookupField]
      rw [← List.filter_reverse]
      exact lookup_filter_ne k _ hk _
    · rfl

/-- Witness for claim C9 at a two-field spec and the key `"mark"`. -/
theorem claim_c9_witness :
    ¬ ("mark" : String).data = ("data" : String).data
    ∧ lookupField (strip_chart_data (Json.obj
          [(("data" : String).data, Json.null),
           (("mark" : String).data, Json.str ("bar" : String).data)]))
        ("mark" : String).data
      = lookupField (Json.obj
          [(("data" : String).data, Json.null),
           (("mark" : String).data, Json.str ("bar" : String).data)])
          ("mark" : String).data :=
  ⟨by decide,
    (claim_c9 [(("data" : String).data, Json.null),
      (("mark" : String).data, Json.str ("bar" : String).data)]).2
      ("mark" : String).data (by decide)⟩

/-- Claim C10, counterexample: with an empty schema the function returns
a two-statement input whole, not its stringified first statement, so the
claim as stated (for every input) fails. -/
theorem claim_c10_counterexample :
    2 ≤ (splitStmts (lexSql ("SELECT 1; SELECT 2" : String).data)).length
    ∧ normalize_table_names "SELECT 1; SELECT 2" [] = "SELECT 1; SELECT 2"
    ∧ firstStatementString "SELECT 1; SELECT 2" = "SELECT 1;"
    ∧ ¬ ("SELECT 1; SELECT 2" : String) = "SELECT 1;" := by
  refine ⟨by decide, rfl, rfl, by decide⟩

/-- Claim C10 as amended: with a **non-empty** schema the function
returns exactly the stringified first statement of a multi-statement
input, discarding the rest; an input lexing to no statement is returned
unchanged (for any schema). -/
theorem claim_c10_amended (sql : String) (schema : List (String × List String)) :
    (¬ schema = [] → 2 ≤ (splitStmts (lexSql sql.data)).length →
      normalize_table_names sql schema = firstStatementString sql)
    ∧ (splitStmts (lexSql sql.data) = [] → normalize_table_names sql schema = sql) := by
  constructor
  · intro hs hlen
    have hse : schema.isEmpty = false := by
      cases schema with
      | nil => exact absurd rfl hs
      | cons a t => rfl
    cases hsp : splitStmts (lexSql sql.data) with
    | nil => rw [hsp] at hlen; simp at hlen
    | cons s gs =>
      simp only [normalize_table_names, hse, Bool.false_eq_true, if_false, hsp]
      simp only [firstStatementString, hsp]
      rw [flattenL_fixL, groupToks_flatten s.length s le_rfl]
  · intro h
    simp only [normalize_table_names, firstStatementString, h]
    split <;> rfl

/-- Witness for claim C10 as amended, at a two-statement input and a
non-empty schema. -/
theorem claim_c10_witness :
    ¬ ([("Employees", ["id", "name"])] : List (String × List String)) = []
    ∧ 2 ≤ (splitStmts (lexSql ("SELECT 1; SELECT 2" : String).data)).length
    ∧ normalize_table_names "SELECT 1; SELECT 2" [("Employees", ["id", "name"])]
        = firstStatementString "SELECT 1; SELECT 2" :=
  ⟨by decide, by decide,
    (claim_c10_amended "SELECT 1; SELECT 2" [("Employees", ["id", "name"])]).1
      (by decide) (by decide)⟩
